import Mathlib

/-!
Verification of the wine-db snapshot/label script (`wine_labels.py`).

Strings are modelled as lists of characters (`Str`), Python values that can
appear in a CSV cell as `Value`, and each pure fragment of the script as a
Lean function carrying the source function's name.  Stateful fragments
(the label-sheet layout loop, the git publish sequence) are modelled by
explicit state passing.
-/

namespace WineDB

/-- A Python string, modelled as its list of characters. -/
abbrev Str := List Char

/-- A Python value as it can appear in a CSV row cell: `None`, a string,
or a non-string object together with the text `str()` renders it to. -/
inductive Value where
  | none
  | str (s : Str)
  | other (s : Str)
deriving DecidableEq

/-- Characters removed by Python's default `str.strip()` (the characters
for which `str.isspace()` holds). -/
def isPySpace (c : Char) : Bool :=
  c = ' ' || c = '\t' || c = '\n' || c = '\r' ||
  c.toNat = 0x0B || c.toNat = 0x0C ||
  (0x1C ≤ c.toNat && c.toNat ≤ 0x1F) || c.toNat = 0x85 || c.toNat = 0xA0 ||
  c.toNat = 0x1680 || (0x2000 ≤ c.toNat && c.toNat ≤ 0x200A) ||
  c.toNat = 0x2028 || c.toNat = 0x2029 || c.toNat = 0x202F ||
  c.toNat = 0x205F || c.toNat = 0x3000

/-- The zero-width / invisible characters matched by `ZW_CHARS_RE`
(U+200B..U+200D and U+FEFF), `wine_labels.py` line 25. -/
def isZW (c : Char) : Bool :=
  (0x200B ≤ c.toNat && c.toNat ≤ 0x200D) || c.toNat = 0xFEFF

/-- Python `s.replace(a, b)` for single-character `a`, `b`: replace every
occurrence of `a` by `b`. -/
def replaceChar (a b : Char) (l : Str) : Str :=
  l.map (fun c => if c = a then b else c)

/-- Python `s.strip()`: drop the whitespace characters at both ends. -/
def pyStrip (l : Str) : Str :=
  (l.dropWhile isPySpace).rdropWhile isPySpace

/-- The sanitizing core of `clean_field` (`wine_labels.py` lines 32-33):
remove the zero-width characters, replace each CR and each LF by a space,
then strip both ends. -/
def cleanStr (s : Str) : Str :=
  pyStrip (replaceChar '\n' ' ' (replaceChar '\r' ' ' (s.filter (fun c => !isZW c))))

/-- `clean_field` (`wine_labels.py` lines 27-34): `None` becomes the empty
string, a non-string value is converted by `str()` first, and the text is
sanitized by `cleanStr`. -/
def clean_field (v : Value) : Str :=
  match v with
  | Value.none => []
  | Value.str s => cleanStr s
  | Value.other s => cleanStr s

/-! Helper lemmas about the sanitizer. -/

theorem mem_replaceChar {a b c : Char} {l : Str} (h : c ∈ replaceChar a b l) :
    c = b ∨ (c ∈ l ∧ c ≠ a) := by
  rcases List.mem_map.mp h with ⟨d, hd, hdc⟩
  by_cases hda : d = a
  · left; simp [hda] at hdc; exact hdc.symm
  · right; simp [hda] at hdc; exact ⟨hdc ▸ hd, hdc ▸ hda⟩

theorem replaceChar_eq_self {a b : Char} {l : Str} (h : ∀ c ∈ l, c ≠ a) :
    replaceChar a b l = l := by
  induction l with
  | nil => rfl
  | cons x xs ih =>
    have hx : x ≠ a := h x (List.mem_cons_self x xs)
    have hxs : replaceChar a b xs = xs := ih (fun c hc => h c (List.mem_cons_of_mem x hc))
    simp [replaceChar, hx] at *
    exact hxs

theorem mem_pyStrip {c : Char} {l : Str} (h : c ∈ pyStrip l) : c ∈ l := by
  unfold pyStrip at h
  have h1 : c ∈ (l.dropWhile isPySpace) :=
    (List.rdropWhile_prefix isPySpace (l.dropWhile isPySpace)).sublist.subset h
  exact (List.dropWhile_sublist isPySpace).subset h1

theorem head?_dropWhile_false {p : Char → Bool} {l : Str} {c : Char}
    (h : (l.dropWhile p).head? = some c) : p c = false := by
  induction l with
  | nil => simp at h
  | cons x xs ih =>
    rw [List.dropWhile_cons] at h
    by_cases hx : p x
    · rw [if_pos hx] at h; exact ih h
    · rw [if_neg hx] at h
      simp at h
      rw [← h]
      simpa using hx

theorem head?_of_isPrefix {l₁ l₂ : Str} {c : Char} (h : l₁ <+: l₂)
    (hc : l₁.head? = some c) : l₂.head? = some c := by
  rcases h with ⟨t, ht⟩
  rcases l₁ with _ | ⟨a, r⟩
  · simp at hc
  · simp at hc
    rw [← ht]
    simp [hc]

theorem pyStrip_head? {l : Str} {c : Char} (h : (pyStrip l).head? = some c) :
    isPySpace c = false := by
  unfold pyStrip at h
  have hpre := List.rdropWhile_prefix isPySpace (l.dropWhile isPySpace)
  exact head?_dropWhile_false (head?_of_isPrefix hpre h)

theorem pyStrip_getLast? {l : Str} {c : Char} (h : (pyStrip l).getLast? = some c) :
    isPySpace c = false := by
  unfold pyStrip List.rdropWhile at h
  rw [List.getLast?_reverse] at h
  exact head?_dropWhile_false h

theorem dropWhile_eq_self_of_head? {p : Char → Bool} {l : Str}
    (h : ∀ c, l.head? = some c → p c = false) : l.dropWhile p = l := by
  rcases l with _ | ⟨a, r⟩
  · rfl
  · have ha := h a rfl
    rw [List.dropWhile_cons]
    simp [ha]

theorem rdropWhile_eq_self_of_getLast? {p : Char → Bool} {l : Str}
    (h : ∀ c, l.getLast? = some c → p c = false) : l.rdropWhile p = l := by
  unfold List.rdropWhile
  rw [List.reverse_eq_iff]
  apply dropWhile_eq_self_of_head?
  intro c hc
  apply h
  rw [← List.head?_reverse]
  exact hc

theorem pyStrip_idem (l : Str) : pyStrip (pyStrip l) = pyStrip l := by
  have h1 : (pyStrip l).dropWhile isPySpace = pyStrip l :=
    dropWhile_eq_self_of_head? (fun _ hc => pyStrip_head? hc)
  show ((pyStrip l).dropWhile isPySpace).rdropWhile isPySpace = pyStrip l
  rw [h1]
  exact rdropWhile_eq_self_of_getLast? (fun _ hc => pyStrip_getLast? hc)

theorem clean_field_mem {v : Value} {c : Char} (h : c ∈ clean_field v) :
    isZW c = false ∧ c ≠ '\r' ∧ c ≠ '\n' := by
  rcases v with _ | s | s
  · simp [clean_field] at h
  all_goals
    simp only [clean_field, cleanStr] at h
    have h1 := mem_pyStrip h
    rcases mem_replaceChar h1 with hsp | ⟨h2, hn⟩
    · subst hsp; exact ⟨by decide, by decide, by decide⟩
    · rcases mem_replaceChar h2 with hsp | ⟨h3, hr⟩
      · subst hsp; exact ⟨by decide, by decide, by decide⟩
      · have h4 := List.of_mem_filter h3
        exact ⟨by simpa using h4, hr, hn⟩

theorem cleanStr_idem (s : Str) : cleanStr (cleanStr s) = cleanStr s := by
  have hfilter : (cleanStr s).filter (fun c => !isZW c) = cleanStr s := by
    apply List.filter_eq_self.mpr
    intro a ha
    have hm := clean_field_mem (v := Value.str s) ha
    simpa using hm.1
  have hr : replaceChar '\r' ' ' (cleanStr s) = cleanStr s := by
    apply replaceChar_eq_self
    intro c hc
    exact (clean_field_mem (v := Value.str s) hc).2.1
  have hn : replaceChar '\n' ' ' (cleanStr s) = cleanStr s := by
    apply replaceChar_eq_self
    intro c hc
    exact (clean_field_mem (v := Value.str s) hc).2.2
  show pyStrip (replaceChar '\n' ' '
      (replaceChar '\r' ' ' ((cleanStr s).filter (fun c => !isZW c)))) = cleanStr s
  rw [hfilter, hr, hn]
  exact pyStrip_idem (replaceChar '\n' ' '
    (replaceChar '\r' ' ' (s.filter (fun c => !isZW c))))

/-- Claim C5, counterexample: the sanitizer does not collapse the
two-character CRLF sequence to a single space; `clean_field` applied to
the string "a\r\nb" yields "a  b" (two spaces), not "a b". -/
theorem c5_counterexample :
    clean_field (Value.str ['a', '\r', '\n', 'b']) = ['a', ' ', ' ', 'b'] ∧
    (['a', ' ', ' ', 'b'] : Str) ≠ ['a', ' ', 'b'] := by decide

/-- Claim C5 (amended): the sanitizer replaces each carriage-return and
each line-feed character individually by one space, so the two-character
CRLF sequence becomes two spaces (cleaning "a\r\nb" yields "a  b"), and
no CR or LF character survives in any output. -/
theorem c5_amended (s : Str) :
    clean_field (Value.str ['a', '\r', '\n', 'b']) = ['a', ' ', ' ', 'b'] ∧
    (∀ c ∈ clean_field (Value.str s), c ≠ '\r' ∧ c ≠ '\n') := by
  refine ⟨by decide, ?_⟩
  intro c hc
  exact (clean_field_mem hc).2

/-- Claim C5 (amended), witness at the concrete input "a\r\nb". -/
theorem c5_amended_witness :
    clean_field (Value.str ['a', '\r', '\n', 'b']) = ['a', ' ', ' ', 'b'] :=
  (c5_amended []).1

/-- Claim C7: the Field Sanitizer is idempotent; applying `clean_field`
to the result of `clean_field` yields the same string as applying it
once. -/
theorem clean_field_idempotent (v : Value) :
    clean_field (Value.str (clean_field v)) = clean_field v := by
  rcases v with _ | s | s
  · decide
  · exact cleanStr_idem s
  · exact cleanStr_idem s

/-- Claim C8: `clean_field` is a total function: `None` yields the empty
string, a non-string input is first converted to its text representation
and cleaned exactly like a string, and every output is free of
zero-width characters (U+200B..U+200D, U+FEFF), free of CR and LF, and
has no leading or trailing whitespace character. -/
theorem clean_field_total (v : Value) (s : Str) :
    clean_field Value.none = [] ∧
    clean_field (Value.other s) = clean_field (Value.str s) ∧
    (∀ c ∈ clean_field v, isZW c = false ∧ c ≠ '\r' ∧ c ≠ '\n') ∧
    (∀ c, (clean_field v).head? = some c → isPySpace c = false) ∧
    (∀ c, (clean_field v).getLast? = some c → isPySpace c = false) := by
  refine ⟨rfl, rfl, fun _ hc => clean_field_mem hc, ?_, ?_⟩
  · intro c hc
    rcases v with _ | t | t
    · simp [clean_field] at hc
    · exact pyStrip_head? hc
    · exact pyStrip_head? hc
  · intro c hc
    rcases v with _ | t | t
    · simp [clean_field] at hc
    · exact pyStrip_getLast? hc
    · exact pyStrip_getLast? hc

/-- Claim C8, witness: the `None` clause evaluated concretely. -/
theorem clean_field_total_witness : clean_field Value.none = [] :=
  (clean_field_total Value.none []).1

/-!
### Record ingestion and filter (`fetch_wines_from_google_sheet`)

A cleaned CSV row is a Python dict from stripped column names to cleaned
string values; a dict is modelled as an association list whose keys are
unique (lookup takes the first binding).
-/

abbrev Row := List (Str × Str)

/-- A raw CSV row as produced by `csv.DictReader`: column names mapped to
cell values. -/
abbrev RawRow := List (Str × Value)

/-- Python dict lookup `row[k]`, as an association-list scan. -/
def dictGet (row : Row) (k : Str) : Option Str :=
  match row with
  | [] => Option.none
  | (k2, v) :: rest => if k2 = k then some v else dictGet rest k

/-- Python `row.get(k, d)`. -/
def pyGetD (row : Row) (k d : Str) : Str := (dictGet row k).getD d

/-- Python `str.upper()`, modelled character by character on the ASCII
range (the admission check only inspects the letter W/w). -/
def pyUpperChar (c : Char) : Char :=
  if 'a' ≤ c && c ≤ 'z' then Char.ofNat (c.toNat - 32) else c

def pyUpper (l : Str) : Str := l.map pyUpperChar

/-- Python `s.startswith(t)` for the one-character argument `t = [c0]`
used on line 56. -/
def pyStartsWith1 (l : Str) (c0 : Char) : Bool :=
  match l with
  | [] => false
  | c :: _ => decide (c = c0)

def idKey : Str := ['I', 'D']

def nameKey : Str := ['N', 'a', 'm', 'e']

/-- `wine_id` as computed on line 54: `row.get("ID", "").strip()`. -/
def rowID (row : Row) : Str := pyStrip (pyGetD row idKey [])

/-- `name` as computed on line 55: `row.get("Name", "").strip()`. -/
def rowName (row : Row) : Str := pyStrip (pyGetD row nameKey [])

/-- The admission test of line 56: the ID uppercased starts with "W" and
the name is non-empty (Python truthiness of a string). -/
def qualifies (row : Row) : Bool :=
  pyStartsWith1 (pyUpper (rowID row)) 'W' && !(rowName row).isEmpty

/-- The filter loop of lines 51-61; `seen` is the set of IDs of already
admitted rows (a Python set, modelled as a list with membership). -/
def filterLoop : List Row → List Str → List Row
  | [], _ => []
  | row :: rest, seen =>
    if qualifies row then
      if rowID row ∈ seen then filterLoop rest seen
      else row :: filterLoop rest (rowID row :: seen)
    else filterLoop rest seen

/-- Key cleaning of line 47: `k.strip() if k else k`. -/
def stripKey (k : Str) : Str := if k.isEmpty then k else pyStrip k

/-- Row cleaning of line 47: strip each key, `clean_field` each value. -/
def cleanRow (r : RawRow) : Row :=
  r.map (fun kv => (stripKey kv.1, clean_field kv.2))

/-- The pure part of `fetch_wines_from_google_sheet` (lines 45-64): the
decoded CSV rows are cleaned, then filtered and deduplicated.  The HTTP
fetch and the CSV parse producing `raw_rows` are external I/O. -/
def fetch_wines_from_google_sheet (raw_rows : List RawRow) : List Row :=
  filterLoop (raw_rows.map cleanRow) []

/-! The concrete rows of the spec scenario (spec section 8). -/

def rowW1 : RawRow :=
  [(idKey, Value.str ['W', '1']), (nameKey, Value.str ['M', 'a', 'l', 'b', 'e', 'c'])]

def roww1 : RawRow :=
  [(idKey, Value.str ['w', '1']), (nameKey, Value.str ['D', 'u', 'p'])]

def rowX1 : RawRow :=
  [(idKey, Value.str ['X', '1']), (nameKey, Value.str ['S', 'k', 'i', 'p'])]

def rowW2 : RawRow :=
  [(idKey, Value.str ['W', '2']), (nameKey, Value.str [])]

def scenarioRows : List RawRow := [rowW1, roww1, rowX1, rowW2]

/-- Claim C2, counterexample: on the scenario rows the filter admits two
records, not one; the duplicate-ID check compares IDs case-sensitively,
so "w1" is not dropped as a duplicate of "W1". -/
theorem c2_counterexample :
    fetch_wines_from_google_sheet scenarioRows = [cleanRow rowW1, cleanRow roww1] ∧
    (fetch_wines_from_google_sheet scenarioRows).length ≠ 1 := by decide

/-- Claim C2 (amended): on the scenario rows the filter admits exactly
two records, W1/"Malbec" and w1/"Dup" (the ID dedup is case-sensitive,
so "w1" does not repeat "W1"); "X1" fails the W-prefix check and "W2"
fails the non-empty-name check. -/
theorem c2_amended :
    fetch_wines_from_google_sheet scenarioRows = [cleanRow rowW1, cleanRow roww1] ∧
    rowID (cleanRow rowW1) = ['W', '1'] ∧
    rowName (cleanRow rowW1) = ['M', 'a', 'l', 'b', 'e', 'c'] ∧
    rowID (cleanRow roww1) = ['w', '1'] ∧
    qualifies (cleanRow rowX1) = false ∧
    qualifies (cleanRow rowW2) = false := by decide

/-! Structural lemmas about the filter loop. -/

theorem filterLoop_qualifies : ∀ (rows : List Row) (seen : List Str) (r : Row),
    r ∈ filterLoop rows seen → qualifies r = true := by
  intro rows
  induction rows with
  | nil => intro seen r h; simp [filterLoop] at h
  | cons row rest ih =>
    intro seen r h
    rw [filterLoop] at h
    by_cases hq : qualifies row
    · rw [if_pos hq] at h
      by_cases hdup : rowID row ∈ seen
      · rw [if_pos hdup] at h; exact ih _ _ h
      · rw [if_neg hdup] at h
        rcases List.mem_cons.mp h with he | hm
        · rw [he]; exact hq
        · exact ih _ _ hm
    · rw [if_neg hq] at h; exact ih _ _ h

theorem filterLoop_nodup : ∀ (rows : List Row) (seen : List Str),
    ((filterLoop rows seen).map rowID).Nodup ∧
    ∀ id0 ∈ (filterLoop rows seen).map rowID, id0 ∉ seen := by
  intro rows
  induction rows with
  | nil => intro seen; simp [filterLoop]
  | cons row rest ih =>
    intro seen
    rw [filterLoop]
    by_cases hq : qualifies row
    · rw [if_pos hq]
      by_cases hdup : rowID row ∈ seen
      · rw [if_pos hdup]; exact ih seen
      · rw [if_neg hdup]
        rcases ih (rowID row :: seen) with ⟨hnd, hns⟩
        constructor
        · rw [List.map_cons, List.nodup_cons]
          refine ⟨fun hmem => ?_, hnd⟩
          exact hns _ hmem (List.mem_cons_self _ _)
        · intro id0 hid0
          rw [List.map_cons] at hid0
          rcases List.mem_cons.mp hid0 with he | hm
          · rw [he]; exact hdup
          · intro hseen
            exact hns _ hm (List.mem_cons_of_mem _ hseen)
    · rw [if_neg hq]; exact ih seen

theorem filterLoop_sublist : ∀ (rows : List Row) (seen : List Str),
    (filterLoop rows seen).Sublist (rows.filter qualifies) := by
  intro rows
  induction rows with
  | nil => intro seen; simp [filterLoop]
  | cons row rest ih =>
    intro seen
    rw [filterLoop]
    by_cases hq : qualifies row
    · rw [if_pos hq, List.filter_cons_of_pos hq]
      by_cases hdup : rowID row ∈ seen
      · rw [if_pos hdup]
        exact (ih seen).cons row
      · rw [if_neg hdup]
        exact (ih (rowID row :: seen)).cons₂ row
    · rw [if_neg hq, List.filter_cons_of_neg hq]
      exact ih seen

theorem filterLoop_first : ∀ (rows : List Row) (seen : List Str) (r : Row),
    (rows.filter qualifies).find? (fun r2 => decide (rowID r2 = rowID r)) = some r →
    rowID r ∉ seen → r ∈ filterLoop rows seen := by
  intro rows
  induction rows with
  | nil => intro seen r h _; simp at h
  | cons row rest ih =>
    intro seen r hfind hseen
    rw [filterLoop]
    by_cases hq : qualifies row
    · rw [List.filter_cons_of_pos hq] at hfind
      rw [if_pos hq]
      by_cases hid : rowID row = rowID r
      · rw [List.find?_cons_of_pos _ (by simp [hid])] at hfind
        have hrow : row = r := by simpa using hfind
        rw [hrow] at hid ⊢
        rw [if_neg (hid ▸ hseen)]
        exact List.mem_cons_self _ _
      · rw [List.find?_cons_of_neg _ (by simp [hid])] at hfind
        by_cases hdup : rowID row ∈ seen
        · rw [if_pos hdup]
          exact ih seen r hfind hseen
        · rw [if_neg hdup]
          refine List.mem_cons_of_mem _ (ih _ r hfind ?_)
          intro hmem
          rcases List.mem_cons.mp hmem with he | hm
          · exact hid he.symm
          · exact hseen hm
    · rw [List.filter_cons_of_neg hq] at hfind
      rw [if_neg hq]
      exact ih seen r hfind hseen

/-- Claim C4: the admitted list has pairwise distinct cleaned IDs
(compared case-sensitively), is an order-preserving sublist of the
qualifying cleaned rows, and contains the first qualifying occurrence of
each ID — so among duplicate IDs exactly the first source occurrence is
kept and later ones are excluded. -/
theorem c4_dedup (raw_rows : List RawRow) :
    ((fetch_wines_from_google_sheet raw_rows).map rowID).Nodup ∧
    (fetch_wines_from_google_sheet raw_rows).Sublist
      ((raw_rows.map cleanRow).filter qualifies) ∧
    ∀ r : Row,
      ((raw_rows.map cleanRow).filter qualifies).find?
        (fun r2 => decide (rowID r2 = rowID r)) = some r →
      r ∈ fetch_wines_from_google_sheet raw_rows := by
  refine ⟨(filterLoop_nodup _ []).1, filterLoop_sublist _ [], ?_⟩
  intro r h
  exact filterLoop_first _ [] r h (by simp)

/-- The rows used as concrete duplicate-ID inputs. -/
def rowDupA : RawRow := [(idKey, Value.str ['W', '7']), (nameKey, Value.str ['A'])]

def rowDupB : RawRow := [(idKey, Value.str ['W', '7']), (nameKey, Value.str ['B'])]

/-- Claim C4, witness: with two rows sharing the ID "W7", the first
occurrence is in the admitted list. -/
theorem c4_dedup_witness :
    cleanRow rowDupA ∈ fetch_wines_from_google_sheet [rowDupA, rowDupB] :=
  (c4_dedup [rowDupA, rowDupB]).2.2 (cleanRow rowDupA) (by decide)

/-- Claim C3, counterexample: the second of two rows with the same ID
"W7" satisfies the claimed admission predicate (cleaned ID starts with
"W" case-insensitively and cleaned Name non-empty) yet is not admitted,
because of the duplicate-ID rule the claim's biconditional omits. -/
theorem c3_counterexample :
    qualifies (cleanRow rowDupB) = true ∧
    cleanRow rowDupB ∉ fetch_wines_from_google_sheet [rowDupA, rowDupB] := by decide

/-- The admission rule as the spec words it (sections 4.2 and 8), carried
with the list of previously admitted rows: a row is admitted iff its
cleaned ID uppercased starts with "W", its cleaned Name is non-empty,
and its ID does not repeat a previously admitted row's ID. -/
def specAdmitFrom (admitted : List Row) : List Row → List Row
  | [] => []
  | row :: rest =>
    if qualifies row = true ∧ ∀ a ∈ admitted, rowID a ≠ rowID row then
      row :: specAdmitFrom (admitted ++ [row]) rest
    else specAdmitFrom admitted rest

theorem filterLoop_eq_specAdmitFrom : ∀ (rows : List Row) (seen : List Str)
    (admitted : List Row),
    (∀ id0, id0 ∈ seen ↔ ∃ a ∈ admitted, rowID a = id0) →
    filterLoop rows seen = specAdmitFrom admitted rows := by
  intro rows
  induction rows with
  | nil => intro seen admitted _; rfl
  | cons row rest ih =>
    intro seen admitted hinv
    rw [filterLoop, specAdmitFrom]
    by_cases hq : qualifies row
    · rw [if_pos hq]
      by_cases hdup : rowID row ∈ seen
      · have hnot : ¬(qualifies row = true ∧ ∀ a ∈ admitted, rowID a ≠ rowID row) := by
          rintro ⟨-, hall⟩
          rcases (hinv _).mp hdup with ⟨a, ha, hae⟩
          exact hall a ha hae
        rw [if_pos hdup, if_neg hnot]
        exact ih seen admitted hinv
      · have hyes : qualifies row = true ∧ ∀ a ∈ admitted, rowID a ≠ rowID row := by
          refine ⟨hq, fun a ha hae => hdup ((hinv _).mpr ⟨a, ha, hae⟩)⟩
        rw [if_neg hdup, if_pos hyes]
        congr 1
        apply ih
        intro id0
        constructor
        · intro hmem
          rcases List.mem_cons.mp hmem with he | hm
          · exact ⟨row, by simp, he.symm⟩
          · rcases (hinv id0).mp hm with ⟨a, ha, hae⟩
            exact ⟨a, by simp [ha], hae⟩
        · rintro ⟨a, ha, hae⟩
          rcases List.mem_append.mp ha with hal | har
          · exact List.mem_cons_of_mem _ ((hinv id0).mpr ⟨a, hal, hae⟩)
          · have : a = row := by simpa using har
            rw [this] at hae
            rw [← hae]
            exact List.mem_cons_self _ _
    · have hnot : ¬(qualifies row = true ∧ ∀ a ∈ admitted, rowID a ≠ rowID row) := by
        rintro ⟨hq2, -⟩
        exact hq hq2
      rw [if_neg hq, if_neg hnot]
      exact ih seen admitted hinv

/-- Claim C3 (amended): a row is admitted iff its cleaned ID, uppercased,
starts with "W", its cleaned Name is non-empty, and its cleaned ID does
not repeat the ID of a previously admitted row; the code's filter equals
that rule stated over the list of previously admitted rows. -/
theorem c3_amended (raw_rows : List RawRow) :
    fetch_wines_from_google_sheet raw_rows =
      specAdmitFrom [] (raw_rows.map cleanRow) := by
  apply filterLoop_eq_specAdmitFrom
  intro id0
  simp

/-- Claim C10: every record admitted by ingestion binds the key "ID" to a
non-empty value and the key "Name" to a non-empty value, so the
unguarded dict lookups wine["ID"] in the page renderer and the label
sheet renderer cannot fail on an ingested collection. -/
theorem c10_required_fields (raw_rows : List RawRow) (r : Row)
    (h : r ∈ fetch_wines_from_google_sheet raw_rows) :
    (∃ v, dictGet r idKey = some v ∧ v ≠ []) ∧
    (∃ w, dictGet r nameKey = some w ∧ w ≠ []) := by
  have hq := filterLoop_qualifies _ _ _ h
  rw [qualifies, Bool.and_eq_true] at hq
  rcases hq with ⟨h1, h2⟩
  constructor
  · rw [rowID, pyGetD] at h1
    rcases hv : dictGet r idKey with _ | v
    · rw [hv] at h1
      exact absurd h1 (by decide)
    · refine ⟨v, rfl, fun hnil => ?_⟩
      rw [hv, hnil] at h1
      exact absurd h1 (by decide)
  · rw [rowName, pyGetD] at h2
    rcases hw : dictGet r nameKey with _ | w
    · rw [hw] at h2
      exact absurd h2 (by decide)
    · refine ⟨w, rfl, fun hnil => ?_⟩
      rw [hw, hnil] at h2
      exact absurd h2 (by decide)

/-- Claim C10, witness: evaluated on the one-row collection made from
the scenario row W1/"Malbec". -/
theorem c10_required_fields_witness :
    (∃ v, dictGet (cleanRow rowW1) idKey = some v ∧ v ≠ []) ∧
    (∃ w, dictGet (cleanRow rowW1) nameKey = some w ∧ w ≠ []) :=
  c10_required_fields [rowW1] (cleanRow rowW1) (by decide)

/-!
### Label sheet layout (`generate_pdf`, lines 115-173)

The geometry of the loop is modelled exactly: positions in points on a
US-letter page (612 x 792), pages counted from 1, with `showPage`
starting a new page.  The drawing backend (QR encoding, text placement
within a block) is external; the model records the (x, y, page) at which
each block is drawn.
-/

def margin_x : Int := 50

def margin_y : Int := 50

def col_width : Int := 300

def row_height : Int := 120

def items_per_row : Nat := 2

def items_per_page : Nat := 8

def letterHeight : Int := 792

def x_start : Int := margin_x

def y_start : Int := letterHeight - margin_y - row_height

/-- The position at which one label block is drawn: its lower-left x, y
and the 1-based page it lands on. -/
structure LayoutPos where
  x : Int
  y : Int
  page : Nat
deriving DecidableEq

/-- Lines 162-166: after drawing block `i` (1-based), wrap to a new row
when the row is full, otherwise move one column to the right. -/
def rowWrapStep (i : Nat) (s : LayoutPos) : LayoutPos :=
  if i % items_per_row = 0 then { s with x := x_start, y := s.y - row_height }
  else { s with x := s.x + col_width }

/-- Lines 168-171: after the row-wrap update, start a fresh page when the
page is full (`showPage` plus reset to the top-left start position). -/
def pageBreakStep (i : Nat) (s : LayoutPos) : LayoutPos :=
  if i % items_per_page = 0 then { x := x_start, y := y_start, page := s.page + 1 }
  else s

/-- The whole state update after block `i`: the row-wrap check runs
before the page-break check, as in the source. -/
def stepAfter (i : Nat) (s : LayoutPos) : LayoutPos := pageBreakStep i (rowWrapStep i s)

/-- Lines 125-128: the initial pen position, top-left of page 1. -/
def initPos : LayoutPos := { x := x_start, y := y_start, page := 1 }

/-- The enumeration loop of line 132: block `i` is drawn at the current
position, then the position is updated by `stepAfter i`. -/
def layoutAux {α : Type} : Nat → LayoutPos → List α → List LayoutPos
  | _, _, [] => []
  | i, s, _ :: ws => s :: layoutAux (i + 1) (stepAfter i s) ws

/-- The layout part of `generate_pdf`: the position at which each record's
label block is drawn, in record order. -/
def generate_pdf {α : Type} (wines : List α) : List LayoutPos :=
  layoutAux 1 initPos wines

/-- The position of the block with 0-based index `k`, starting the loop
at ordinal `i` in state `s`. -/
def posFrom (i : Nat) (s : LayoutPos) : Nat → LayoutPos
  | 0 => s
  | k + 1 => posFrom (i + 1) (stepAfter i s) k

theorem layoutAux_length {α : Type} : ∀ (ws : List α) (i : Nat) (s : LayoutPos),
    (layoutAux i s ws).length = ws.length := by
  intro ws
  induction ws with
  | nil => intro i s; rfl
  | cons w rest ih => intro i s; simp [layoutAux, ih]

theorem length_generate_pdf {α : Type} (ws : List α) :
    (generate_pdf ws).length = ws.length :=
  layoutAux_length ws 1 initPos

theorem layoutAux_get {α : Type} : ∀ (ws : List α) (i : Nat) (s : LayoutPos)
    (k : Nat) (hk : k < (layoutAux i s ws).length),
    (layoutAux i s ws).get ⟨k, hk⟩ = posFrom i s k := by
  intro ws
  induction ws with
  | nil => intro i s k hk; simp [layoutAux] at hk
  | cons w rest ih =>
    intro i s k hk
    rcases k with _ | k2
    · rfl
    · exact ih (i + 1) (stepAfter i s) k2 _

theorem generate_pdf_get {α : Type} (ws : List α) (k : Nat)
    (hk : k < (generate_pdf ws).length) :
    (generate_pdf ws).get ⟨k, hk⟩ = posFrom 1 initPos k :=
  layoutAux_get ws 1 initPos k hk

theorem posFrom_shift_eight (m : Nat) :
    posFrom 1 initPos (m + 8) =
      posFrom 9 { x := x_start, y := y_start, page := 2 } m := rfl

theorem stepAfter_page_le (i : Nat) (s : LayoutPos) :
    s.page ≤ (stepAfter i s).page := by
  rw [stepAfter, rowWrapStep, pageBreakStep]
  by_cases h2 : i % items_per_row = 0 <;> by_cases h8 : i % items_per_page = 0 <;>
    simp [h2, h8]

theorem posFrom_page_le : ∀ (k i : Nat) (s : LayoutPos),
    s.page ≤ (posFrom i s k).page := by
  intro k
  induction k with
  | zero => intro i s; exact Nat.le_refl _
  | succ k2 ih =>
    intro i s
    exact Nat.le_trans (stepAfter_page_le i s) (ih (i + 1) (stepAfter i s))

/-- Claim C6, counterexample: with nine records, the block of record 8
(1-based) is drawn at x = x_start + col_width (the right-hand slot of
its row pairing), not at the bottom-left x = x_start the claim states. -/
theorem c6_counterexample :
    ((generate_pdf (List.replicate 9 0)).get ⟨7, by decide⟩).x = x_start + col_width ∧
    x_start + col_width ≠ x_start := by decide

/-- Claim C6 (amended): with items_per_row = 2 and items_per_page = 8,
for every collection of at least 9 records, record 8 (1-based) is the
last block on page 1 and sits at the bottom-right slot of its row
pairing (x_start + col_width, y_start - 3 * row_height); record 9 is
placed at the top-left start position (x_start, y_start) of a fresh
page 2 — which certifies that the row-wrap reset for ordinal 8 is
applied before its page-break reset. -/
theorem c6_amended {α : Type} (ws : List α) (h : 9 ≤ (generate_pdf ws).length) :
    (generate_pdf ws).get ⟨7, by omega⟩ =
      { x := x_start + col_width, y := y_start - 3 * row_height, page := 1 } ∧
    (generate_pdf ws).get ⟨8, by omega⟩ = { x := x_start, y := y_start, page := 2 } ∧
    (∀ (k : Nat) (hk : k < (generate_pdf ws).length), k < 8 →
      ((generate_pdf ws).get ⟨k, hk⟩).page = 1) ∧
    (∀ (k : Nat) (hk : k < (generate_pdf ws).length), 8 ≤ k →
      2 ≤ ((generate_pdf ws).get ⟨k, hk⟩).page) := by
  refine ⟨?_, ?_, ?_, ?_⟩
  · exact (generate_pdf_get ws 7 (by omega)).trans (by decide)
  · exact (generate_pdf_get ws 8 (by omega)).trans (by decide)
  · intro k hk hk8
    rw [generate_pdf_get]
    interval_cases k <;> decide
  · intro k hk hk8
    rw [generate_pdf_get]
    have hsplit : k = (k - 8) + 8 := by omega
    rw [hsplit, posFrom_shift_eight]
    exact posFrom_page_le (k - 8) 9 { x := x_start, y := y_start, page := 2 }

/-- Claim C6 (amended), witness: evaluated on a nine-element collection,
record 9 lands at the top-left of page 2. -/
theorem c6_amended_witness :
    (generate_pdf (List.replicate 9 0)).get ⟨8, by decide⟩ =
      { x := x_start, y := y_start, page := 2 } :=
  (c6_amended (List.replicate 9 0) (by decide)).2.1

/-!
### Publish step (`push_to_github`, lines 105-113)

The three git sub-steps run in sequence under `check=True` inside a
`try` whose `except` catches `CalledProcessError`.  The outcome of each
external command is an environment `ok : GitCmd → Bool`; the model
returns the list of sub-steps that were started and the log outcome.
-/

inductive GitCmd where
  | add
  | commit
  | push
deriving DecidableEq, Fintype

/-- Position of a sub-step in the fixed add/commit/push sequence. -/
def gitIdx : GitCmd → Nat
  | GitCmd.add => 0
  | GitCmd.commit => 1
  | GitCmd.push => 2

/-- `subprocess.run([...], check=True)`: raises `CalledProcessError`
(modelled as `Except.error`) on a non-zero exit. -/
def runGit (ok : GitCmd → Bool) (c : GitCmd) : Except GitCmd Unit :=
  if ok c then Except.ok () else Except.error c

/-- The body of the `try` block: run the sub-steps in order, stopping at
the first raised error; returns the sub-steps that were executed and the
body's outcome. -/
def gitSeq (ok : GitCmd → Bool) : List GitCmd → List GitCmd × Except GitCmd Unit
  | [] => ([], Except.ok ())
  | c :: cs =>
    match runGit ok c with
    | Except.ok _ =>
      let r := gitSeq ok cs
      (c :: r.1, r.2)
    | Except.error e => ([c], Except.error e)

/-- The fixed sub-step sequence of lines 108-110. -/
def gitCmds : List GitCmd := [GitCmd.add, GitCmd.commit, GitCmd.push]

/-- `push_to_github`: the `try/except` catches any `CalledProcessError`,
so the function always returns normally; the Bool records whether the
success log (line 111) or the failure log (line 113) is printed. -/
def push_to_github (ok : GitCmd → Bool) : List GitCmd × Bool :=
  let r := gitSeq ok gitCmds
  (r.1, match r.2 with
        | Except.ok _ => true
        | Except.error _ => false)

theorem push_to_github_fst (ok : GitCmd → Bool) :
    (push_to_github ok).1 = (gitSeq ok gitCmds).1 := rfl

theorem push_to_github_snd (ok : GitCmd → Bool) :
    (push_to_github ok).2 =
      match (gitSeq ok gitCmds).2 with
      | Except.ok _ => true
      | Except.error _ => false := rfl

/-- Claim C9: if any git sub-step exits non-zero, then the first failing
sub-step's error is caught inside `push_to_github`, which returns
normally with the failure log; every executed sub-step is at or before
the failing one, and the sub-steps after it are not executed. -/
theorem c9_publish_failure (ok : GitCmd → Bool) (c : GitCmd) (h : ok c = false) :
    ∃ e, (gitSeq ok gitCmds).2 = Except.error e ∧ ok e = false ∧
      (push_to_github ok).2 = false ∧
      (∀ d ∈ (push_to_github ok).1, gitIdx d ≤ gitIdx e) ∧
      (∀ d, gitIdx e < gitIdx d → d ∉ (push_to_github ok).1) := by
  cases hA : ok GitCmd.add
  · have hs : gitSeq ok gitCmds = ([GitCmd.add], Except.error GitCmd.add) := by
      simp [gitSeq, gitCmds, runGit, hA]
    refine ⟨GitCmd.add, by rw [hs], hA, ?_, ?_, ?_⟩
    · rw [push_to_github_snd, hs]
    · rw [push_to_github_fst, hs]; decide
    · rw [push_to_github_fst, hs]; decide
  · cases hC : ok GitCmd.commit
    · have hs : gitSeq ok gitCmds =
          ([GitCmd.add, GitCmd.commit], Except.error GitCmd.commit) := by
        simp [gitSeq, gitCmds, runGit, hA, hC]
      refine ⟨GitCmd.commit, by rw [hs], hC, ?_, ?_, ?_⟩
      · rw [push_to_github_snd, hs]
      · rw [push_to_github_fst, hs]; decide
      · rw [push_to_github_fst, hs]; decide
    · cases hP : ok GitCmd.push
      · have hs : gitSeq ok gitCmds =
            ([GitCmd.add, GitCmd.commit, GitCmd.push], Except.error GitCmd.push) := by
          simp [gitSeq, gitCmds, runGit, hA, hC, hP]
        refine ⟨GitCmd.push, by rw [hs], hP, ?_, ?_, ?_⟩
        · rw [push_to_github_snd, hs]
        · rw [push_to_github_fst, hs]; decide
        · rw [push_to_github_fst, hs]; decide
      · exfalso
        cases c <;> simp [hA, hC, hP] at h

/-- The concrete outcome environment in which only `git commit` fails. -/
def okCommitFails : GitCmd → Bool
  | GitCmd.commit => false
  | _ => true

/-- Claim C9, witness: evaluated in the environment where `git commit`
exits non-zero. -/
theorem c9_publish_failure_witness :
    ∃ e, (gitSeq okCommitFails gitCmds).2 = Except.error e ∧ okCommitFails e = false ∧
      (push_to_github okCommitFails).2 = false ∧
      (∀ d ∈ (push_to_github okCommitFails).1, gitIdx d ≤ gitIdx e) ∧
      (∀ d, gitIdx e < gitIdx d → d ∉ (push_to_github okCommitFails).1) :=
  c9_publish_failure okCommitFails GitCmd.commit rfl

/-!
### Snapshot exporter and main block (`export_json` lines 100-103,
`__main__` lines 177-182)

`export_json` is embedded as a function from the rendered snapshot text
and the prior snapshot-file content to the new file content and its
Python return value; the main block as the list of steps one run
performs, with the same two inputs.
-/

/-- `export_json` (lines 100-103): opens the snapshot file for writing
and dumps the rendered JSON text into it unconditionally; it never reads
the prior file content, performs no comparison with it, and returns no
value (Python `None`, here `Unit`). -/
def export_json (newText : Str) (_prior : Option Str) : Option Str × Unit :=
  (some newText, ())

/-- The steps of one run of the script's main block. -/
inductive RunStep where
  | exportStep
  | htmlStep
  | pdfStep
  | publishStep
deriving DecidableEq

/-- The main block (lines 177-182): fetch, export the snapshot, render
the HTML pages, render the PDF sheet, then call `push_to_github` — the
publish call on line 182 is unconditional, gated on nothing. -/
def mainSteps (_newText : Str) (_prior : Option Str) : List RunStep :=
  [RunStep.exportStep, RunStep.htmlStep, RunStep.pdfStep, RunStep.publishStep]

/-- Claim C1, the code at the failing input: with the rendered snapshot
text "a" identical to the prior persisted snapshot content, `export_json`
still returns no changed signal (its return type is `Unit`; it only
writes the file), and the main block still invokes the publish step —
the comparison and the change-gated publish the claim (and spec
sections 4.3 and 6) state are absent from the code. -/
theorem c1_code_bug :
    export_json ['a'] (some ['a']) = (some ['a'], ()) ∧
    RunStep.publishStep ∈ mainSteps ['a'] (some ['a']) := by decide

end WineDB

